import Mathlib

/-!
Shallow embedding of the todo application (src/app.py): task model,
JSON persistence, normalization on load, rollover, sorting, and the
add/toggle/delete handlers, with theorems checking the specification.

Conventions of the embedding:
* Parsed JSON is the inductive `Json`; JSON numbers are modelled as
  integers (no claim depends on float behaviour).
* A Python `date` is `PyDate`; `date.fromisoformat` is `fromisoformat?`
  (it only raises `ValueError`, modelled as `none`, on strings) and
  `date.isoformat` is `isoformat`.  The strict `YYYY-MM-DD` form is
  modelled, which is the only form the program ever writes.
* Code that can raise an uncaught exception returns `Except Unit`;
  `Except.error ()` is an escaping exception (e.g. `TypeError`).
* `str.strip` strips the ASCII whitespace characters; `str.lower`
  lowers ASCII letters.  The Unicode extensions of those Python
  methods are irrelevant to every claim proved here.
* `uuid4` is modelled as an injected generator `fresh : Nat → String`
  consulted each time the program calls it.
-/

namespace TodoApp

inductive Json where
  | null : Json
  | bool (b : Bool) : Json
  | num (n : Int) : Json
  | str (s : String) : Json
  | arr (xs : List Json) : Json
  | obj (fields : List (String × Json)) : Json

mutual

def Json.decEq : (a b : Json) → Decidable (a = b)
  | .null, .null => isTrue rfl
  | .bool a, .bool b =>
    if h : a = b then isTrue (by rw [h]) else isFalse (fun hh => h (by injection hh))
  | .num a, .num b =>
    if h : a = b then isTrue (by rw [h]) else isFalse (fun hh => h (by injection hh))
  | .str a, .str b =>
    if h : a = b then isTrue (by rw [h]) else isFalse (fun hh => h (by injection hh))
  | .arr a, .arr b =>
    match Json.decEqList a b with
    | isTrue h => isTrue (by rw [h])
    | isFalse n => isFalse (fun hh => n (by injection hh))
  | .obj a, .obj b =>
    match Json.decEqFields a b with
    | isTrue h => isTrue (by rw [h])
    | isFalse n => isFalse (fun hh => n (by injection hh))
  | .null, .bool _ => isFalse nofun
  | .null, .num _ => isFalse nofun
  | .null, .str _ => isFalse nofun
  | .null, .arr _ => isFalse nofun
  | .null, .obj _ => isFalse nofun
  | .bool _, .null => isFalse nofun
  | .bool _, .num _ => isFalse nofun
  | .bool _, .str _ => isFalse nofun
  | .bool _, .arr _ => isFalse nofun
  | .bool _, .obj _ => isFalse nofun
  | .num _, .null => isFalse nofun
  | .num _, .bool _ => isFalse nofun
  | .num _, .str _ => isFalse nofun
  | .num _, .arr _ => isFalse nofun
  | .num _, .obj _ => isFalse nofun
  | .str _, .null => isFalse nofun
  | .str _, .bool _ => isFalse nofun
  | .str _, .num _ => isFalse nofun
  | .str _, .arr _ => isFalse nofun
  | .str _, .obj _ => isFalse nofun
  | .arr _, .null => isFalse nofun
  | .arr _, .bool _ => isFalse nofun
  | .arr _, .num _ => isFalse nofun
  | .arr _, .str _ => isFalse nofun
  | .arr _, .obj _ => isFalse nofun
  | .obj _, .null => isFalse nofun
  | .obj _, .bool _ => isFalse nofun
  | .obj _, .num _ => isFalse nofun
  | .obj _, .str _ => isFalse nofun
  | .obj _, .arr _ => isFalse nofun

def Json.decEqList : (a b : List Json) → Decidable (a = b)
  | [], [] => isTrue rfl
  | [], _ :: _ => isFalse nofun
  | _ :: _, [] => isFalse nofun
  | x :: xs, y :: ys =>
    match Json.decEq x y with
    | isTrue h1 =>
      match Json.decEqList xs ys with
      | isTrue h2 => isTrue (by rw [h1, h2])
      | isFalse n => isFalse (fun hh => n (by injection hh))
    | isFalse n => isFalse (fun hh => n (by injection hh))

def Json.decEqFields : (a b : List (String × Json)) → Decidable (a = b)
  | [], [] => isTrue rfl
  | [], _ :: _ => isFalse nofun
  | _ :: _, [] => isFalse nofun
  | (k₁, v₁) :: xs, (k₂, v₂) :: ys =>
    if hk : k₁ = k₂ then
      match Json.decEq v₁ v₂ with
      | isTrue hv =>
        match Json.decEqFields xs ys with
        | isTrue ht => isTrue (by rw [hk, hv, ht])
        | isFalse n => isFalse (fun hh => n (by injection hh))
      | isFalse n =>
        isFalse (fun hh => n (by injection hh with h1 h2; injection h1 with ha hb))
    else
      isFalse (fun hh => hk (by injection hh with h1 h2; injection h1 with ha hb))

end

instance : DecidableEq Json := Json.decEq

/-- Python truthiness of a parsed-JSON value (`bool(x)` / `if x:`). -/
def Json.truthy : Json → Bool
  | .null => false
  | .bool b => b
  | .num n => n != 0
  | .str s => !s.isEmpty
  | .arr xs => !xs.isEmpty
  | .obj fs => !fs.isEmpty

/-- `dict.get k` on a parsed-JSON object; `json.load` keeps the last
occurrence of a duplicated key, so the last binding wins. -/
def assocGet (fields : List (String × Json)) (k : String) : Option Json :=
  match fields with
  | [] => none
  | (k₀, v) :: rest =>
    match assocGet rest k with
    | some w => some w
    | none => if k₀ = k then some v else none

/-- Iterating a Python value: lists yield elements, strings yield
one-character strings, dicts yield their keys; other values raise
`TypeError` (`none`). -/
def pyIter? : Json → Option (List Json)
  | .arr xs => some xs
  | .str s => some (s.data.map (fun c => Json.str (String.mk [c])))
  | .obj fs => some (fs.map (fun kv => Json.str kv.1))
  | _ => none

def squote : Char := Char.ofNat 39

/-- Python `repr` of a string, without the escaping of special
characters (no claim exercises it on such strings). -/
def pyReprStr (s : String) : String :=
  String.mk (squote :: (s.data ++ [squote]))

mutual

/-- Python `repr` of a parsed-JSON value. -/
def pyRepr : Json → String
  | .null => "None"
  | .bool b => if b then "True" else "False"
  | .num n => toString n
  | .str s => pyReprStr s
  | .arr xs => "[" ++ pyReprList xs ++ "]"
  | .obj fs => "\x7b" ++ pyReprFields fs ++ "\x7d"

def pyReprList : List Json → String
  | [] => ""
  | [x] => pyRepr x
  | x :: y :: rest => pyRepr x ++ ", " ++ pyReprList (y :: rest)

def pyReprFields : List (String × Json) → String
  | [] => ""
  | [(k, v)] => pyReprStr k ++ ": " ++ pyRepr v
  | (k, v) :: x :: rest => pyReprStr k ++ ": " ++ pyRepr v ++ ", " ++ pyReprFields (x :: rest)

end

/-- Python `str(x)` on a parsed-JSON value. -/
def pyStr : Json → String
  | .str s => s
  | j => pyRepr j

/-- The ASCII whitespace characters stripped by `str.strip()`. -/
def pyWhitespace (c : Char) : Bool :=
  c = ' ' || c = '\t' || c = '\n' || c = '\r' || c = Char.ofNat 11 || c = Char.ofNat 12

/-- Python `str.strip()`. -/
def pyStrip (s : String) : String :=
  String.mk (((s.data.dropWhile pyWhitespace).reverse.dropWhile pyWhitespace).reverse)

/-- Python `str.lower()` restricted to ASCII letters. -/
def pyLower (s : String) : String :=
  String.mk (s.data.map Char.toLower)

structure PyDate where
  year : Nat
  month : Nat
  day : Nat
deriving DecidableEq

def isLeap (y : Nat) : Bool :=
  y % 4 == 0 && (y % 100 != 0 || y % 400 == 0)

def daysInMonth (y m : Nat) : Nat :=
  if m = 2 then (if isLeap y then 29 else 28)
  else if m = 4 ∨ m = 6 ∨ m = 9 ∨ m = 11 then 30
  else 31

/-- The dates the Python `date` constructor accepts. -/
def validDate (d : PyDate) : Bool :=
  decide (1 ≤ d.year) && decide (d.year ≤ 9999) &&
  decide (1 ≤ d.month) && decide (d.month ≤ 12) &&
  decide (1 ≤ d.day) && decide (d.day ≤ daysInMonth d.year d.month)

def digitChar (n : Nat) : Char :=
  match n with
  | 0 => '0'
  | 1 => '1'
  | 2 => '2'
  | 3 => '3'
  | 4 => '4'
  | 5 => '5'
  | 6 => '6'
  | 7 => '7'
  | 8 => '8'
  | _ => '9'

def charDigit? (c : Char) : Option Nat :=
  if c.isDigit then some (c.toNat - 48) else none

def twoDigits (n : Nat) : List Char :=
  [digitChar (n / 10 % 10), digitChar (n % 10)]

def fourDigits (n : Nat) : List Char :=
  [digitChar (n / 1000 % 10), digitChar (n / 100 % 10), digitChar (n / 10 % 10), digitChar (n % 10)]

/-- `date.isoformat()`. -/
def isoformat (d : PyDate) : String :=
  String.mk (fourDigits d.year ++ '-' :: twoDigits d.month ++ '-' :: twoDigits d.day)

/-- The character-list form of `date.fromisoformat` on the
`YYYY-MM-DD` form. -/
def parseIso : List Char → Option PyDate
  | [y₁, y₂, y₃, y₄, h₁, m₁, m₂, h₂, d₁, d₂] =>
    if h₁ = '-' ∧ h₂ = '-' then
      match charDigit? y₁, charDigit? y₂, charDigit? y₃, charDigit? y₄,
            charDigit? m₁, charDigit? m₂, charDigit? d₁, charDigit? d₂ with
      | some a, some b, some c, some d, some e, some f, some g, some h =>
        if validDate ⟨a * 1000 + b * 100 + c * 10 + d, e * 10 + f, g * 10 + h⟩ then
          some ⟨a * 1000 + b * 100 + c * 10 + d, e * 10 + f, g * 10 + h⟩
        else none
      | _, _, _, _, _, _, _, _ => none
    else none
  | _ => none

/-- `date.fromisoformat` on the `YYYY-MM-DD` form; `none` is the
`ValueError` raised on any other string. -/
def fromisoformat? (s : String) : Option PyDate :=
  parseIso s.data

/-- Lexicographic comparison step: strictly below on this component,
or equal on it and the comparison of the remaining components says
yes. -/
def lexComp {α : Type} [BEq α] (lt : α → α → Bool) (x y : α) (rest : Bool) : Bool :=
  lt x y || (x == y && rest)

/-- Python string comparison (`str.__lt__`): lexicographic by code
point. -/
def pyCharsLt : List Char → List Char → Bool
  | _, [] => false
  | [], _ :: _ => true
  | c :: cs, d :: ds => Nat.blt c.toNat d.toNat || (c == d && pyCharsLt cs ds)

def pyStrLt (a b : String) : Bool :=
  pyCharsLt a.data b.data

/-- Python `date.__lt__`: lexicographic on (year, month, day). -/
def pdLt (a b : PyDate) : Bool :=
  lexComp Nat.blt a.year b.year (lexComp Nat.blt a.month b.month
    (lexComp Nat.blt a.day b.day false))

/-- `iso_to_date` from src/app.py applied to a string value: falsy
(empty) strings and unparseable strings fall back to today. -/
def iso_to_date_str (today : PyDate) (s : String) : PyDate :=
  if s.isEmpty then today else (fromisoformat? s).getD today

/-- `iso_to_date` from src/app.py on an arbitrary value: a falsy
value returns today, a string is parsed with the `ValueError`
fallback, and a truthy non-string raises `TypeError` (only
`ValueError` is caught).  The non-string branches spell out Python
truthiness per constructor. -/
def iso_to_date (today : PyDate) (value : Json) : Except Unit PyDate :=
  match value with
  | .str s => .ok (iso_to_date_str today s)
  | .null => .ok today
  | .bool b => if b then .error () else .ok today
  | .num n => if n != 0 then .error () else .ok today
  | .arr xs => if xs.isEmpty then .ok today else .error ()
  | .obj fs => if fs.isEmpty then .ok today else .error ()

/-- The normalized in-memory task dict. -/
structure Task where
  id : Json
  title : String
  date : String
  priority : String
  notes : String
  done : Bool
deriving DecidableEq

def PRIORITY_LABELS : List String := ["P0", "P1", "P2", "P3"]

/-- `PRIORITY_ORDER.get(p, fallback)`. -/
def PRIORITY_ORDER_get (p : String) (fallback : Nat) : Nat :=
  if p = "P0" then 0
  else if p = "P1" then 1
  else if p = "P2" then 2
  else if p = "P3" then 3
  else fallback

/-- `item.get("id") or str(uuid4())`: a truthy stored id is kept,
otherwise a fresh uuid string is used (the Bool reports whether the
generator was consulted). -/
def normId (v : Option Json) (freshId : String) : Json × Bool :=
  match v with
  | some j => if j.truthy then (j, false) else (Json.str freshId, true)
  | none => (Json.str freshId, true)

/-- `str(item.get("title", "")).strip() or "Untitled task"`. -/
def normTitle (v : Option Json) : String :=
  let s := pyStrip (pyStr (v.getD (Json.str "")))
  if s.isEmpty then "Untitled task" else s

/-- `item.get("priority", "P2") if item.get("priority", "P2") in PRIORITY_LABELS else "P2"`. -/
def normPriority (v : Option Json) : String :=
  match v.getD (Json.str "P2") with
  | .str s => if s ∈ PRIORITY_LABELS then s else "P2"
  | _ => "P2"

/-- `str(item.get("notes", "")).strip()`. -/
def normNotes (v : Option Json) : String :=
  pyStrip (pyStr (v.getD (Json.str "")))

/-- `bool(item.get("done", False))`. -/
def normDone (v : Option Json) : Bool :=
  (v.getD (Json.bool false)).truthy

/-- `iso_to_date(item.get("date", date.today().isoformat()))`. -/
def normDate (today : PyDate) (v : Option Json) : Except Unit PyDate :=
  iso_to_date today (v.getD (Json.str (isoformat today)))

/-- Normalization of one raw record inside `load_tasks`; the Bool
reports whether a fresh uuid was consumed for the id. -/
def normalizeItem (today : PyDate) (freshId : String) (fields : List (String × Json)) :
    Except Unit (Task × Bool) :=
  match normDate today (assocGet fields "date") with
  | .error e => .error e
  | .ok d =>
    .ok ({ id := (normId (assocGet fields "id") freshId).1
           title := normTitle (assocGet fields "title")
           date := isoformat d
           priority := normPriority (assocGet fields "priority")
           notes := normNotes (assocGet fields "notes")
           done := normDone (assocGet fields "done") }, (normId (assocGet fields "id") freshId).2)

/-- State of the backing file `todo_data.json`. -/
inductive FileState where
  | absent : FileState
  | invalid : FileState
  | json (j : Json) : FileState
deriving DecidableEq

/-- The normalization loop of `load_tasks`: non-dict items are
skipped, dict items are normalized, threading the uuid counter. -/
def load_items (today : PyDate) (fresh : Nat → String) :
    List Json → Nat → Except Unit (List Task)
  | [], _ => .ok []
  | j :: rest, k =>
    match j with
    | .obj fs =>
      match normalizeItem today (fresh k) fs with
      | .error e => .error e
      | .ok tb =>
        match load_items today fresh rest (if tb.2 then k + 1 else k) with
        | .error e => .error e
        | .ok ts => .ok (tb.1 :: ts)
    | _ => load_items today fresh rest k

/-- `load_tasks` from src/app.py: absent file and invalid JSON give
the empty list; otherwise the parsed value is iterated (`TypeError`
for a non-iterable top level) and each dict item is normalized. -/
def load_tasks (today : PyDate) (fresh : Nat → String) (file : FileState) :
    Except Unit (List Task) :=
  match file with
  | .absent => .ok []
  | .invalid => .ok []
  | .json j =>
    match pyIter? j with
    | none => .error ()
    | some items => load_items today fresh items 0

/-- The fields `json.dump` writes for one task dict, in insertion
order. -/
def taskFields (t : Task) : List (String × Json) :=
  [("id", t.id), ("title", Json.str t.title), ("date", Json.str t.date),
   ("priority", Json.str t.priority), ("notes", Json.str t.notes),
   ("done", Json.bool t.done)]

/-- The JSON object `json.dump` writes for one task dict. -/
def taskToJson (t : Task) : Json :=
  Json.obj (taskFields t)

/-- `save_tasks`: rewrites the whole backing file. -/
def save_tasks (tasks : List Task) : FileState :=
  .json (.arr (tasks.map taskToJson))

/-- The loop body of `carry_over_unfinished`: done tasks are skipped,
unfinished tasks dated before today are moved to today and counted. -/
def carryLoop (today : PyDate) : List Task → List Task × Nat
  | [] => ([], 0)
  | t :: ts =>
    let rest := carryLoop today ts
    if t.done then (t :: rest.1, rest.2)
    else if pdLt (iso_to_date_str today t.date) today then
      ({ t with date := isoformat today } :: rest.1, rest.2 + 1)
    else (t :: rest.1, rest.2)

/-- `carry_over_unfinished` from src/app.py, returning the mutated
list, the count, and the resulting file state (`save_tasks` runs only
when the count is non-zero). -/
def carry_over_unfinished (today : PyDate) (tasks : List Task) (file : FileState) :
    List Task × Nat × FileState :=
  let r := carryLoop today tasks
  (r.1, r.2, if r.2 = 0 then file else save_tasks r.1)

/-- The sort key of `sort_tasks`: `(iso_to_date(date), PRIORITY_ORDER.get(priority, 99), title.lower())`. -/
structure SortKey where
  date : PyDate
  rank : Nat
  title : String
deriving DecidableEq

def sortKey (today : PyDate) (t : Task) : SortKey :=
  ⟨iso_to_date_str today t.date, PRIORITY_ORDER_get t.priority 99, pyLower t.title⟩

/-- Python tuple comparison of two sort keys (a `date` compares
lexicographically by (year, month, day), then priority rank, then the
lowered title; equal keys compare ≤). -/
def skLe (a b : SortKey) : Bool :=
  lexComp Nat.blt a.date.year b.date.year (lexComp Nat.blt a.date.month b.date.month
    (lexComp Nat.blt a.date.day b.date.day (lexComp Nat.blt a.rank b.rank
      (lexComp pyStrLt a.title b.title true))))

def taskLe (today : PyDate) (a b : Task) : Prop :=
  skLe (sortKey today a) (sortKey today b) = true

instance taskLeDec (today : PyDate) : DecidableRel (taskLe today) :=
  fun a b => instDecidableEqBool (skLe (sortKey today a) (sortKey today b)) true

/-- `sort_tasks` from src/app.py.  Python `sorted` is the stable sort
under the key order `taskLe`; insertion sort is extensionally that
stable sort. -/
def sort_tasks (today : PyDate) (tasks : List Task) : List Task :=
  List.insertionSort (taskLe today) tasks

/-- `toggle_done`: set the done flag of the first task with the given
id, then save unconditionally. -/
def toggleLoop (task_id : String) (val : Bool) : List Task → List Task
  | [] => []
  | t :: ts =>
    if t.id = Json.str task_id then { t with done := val } :: ts
    else t :: toggleLoop task_id val ts

def toggle_done (tasks : List Task) (task_id : String) (val : Bool) :
    List Task × FileState :=
  let ts := toggleLoop task_id val tasks
  (ts, save_tasks ts)

/-- `delete_task` from src/app.py. -/
def delete_task (tasks : List Task) (task_id : String) : List Task × FileState :=
  let ts := tasks.filter (fun t => !(t.id == Json.str task_id))
  (ts, save_tasks ts)

/-- The add-task form handler: `if add and title.strip():` append the
new record and save, else do nothing. -/
def add_task_handler (add : Bool) (title : String) (due : PyDate)
    (priority : String) (notes : String) (newId : String)
    (tasks : List Task) (file : FileState) : List Task × FileState :=
  if add && !(pyStrip title).isEmpty then
    let ts := tasks ++ [{ id := Json.str newId, title := pyStrip title,
                          date := isoformat due, priority := priority,
                          notes := pyStrip notes, done := false }]
    (ts, save_tasks ts)
  else (tasks, file)

/-- A task the rollover moves: unfinished and dated strictly before
today (the reading of `date < today` for parseable dates). -/
def overdue (today : PyDate) (t : Task) : Bool :=
  !t.done && (match fromisoformat? t.date with
    | some d => pdLt d today
    | none => false)

/-- The ids of a task collection, in order. -/
def taskIds (tasks : List Task) : List Json :=
  tasks.map Task.id

/-- No two tasks in the collection share an id. -/
def UniqueIds (tasks : List Task) : Prop :=
  (taskIds tasks).Nodup

/-- The truthy id values carried by the raw records of the backing
array, in order (the ids `load_tasks` keeps verbatim). -/
def truthyIds (items : List Json) : List Json :=
  items.filterMap (fun j => match j with
    | .obj fs =>
      match assocGet fs "id" with
      | some v => if v.truthy then some v else none
      | none => none
    | _ => none)

/-- Every raw record's id field is a string, falsy, or absent. -/
def idFieldsOk (items : List Json) : Bool :=
  items.all (fun j => match j with
    | .obj fs =>
      match assocGet fs "id" with
      | some (.str _) => true
      | some v => !v.truthy
      | none => true
    | _ => true)

/-- A date field value that cannot raise during normalization:
absent, falsy, or a string. -/
def safeDateVal : Option Json → Bool
  | none => true
  | some (Json.str _) => true
  | some v => !v.truthy

/-- A raw record whose date field cannot raise: the field is absent,
falsy, or a string. -/
def safeItem : Json → Bool
  | .obj fs => safeDateVal (assocGet fs "date")
  | _ => true

/-- Whether an `Except` computation finished without an exception. -/
def exceptOk {ε α : Type} : Except ε α → Bool
  | .ok _ => true
  | .error _ => false

/-- A date field value that the normalization replaces by today:
absent, falsy (empty among strings), or an unparseable string. -/
def fallbackDate : Option Json → Bool
  | none => true
  | some (Json.str s) => s.isEmpty || (fromisoformat? s).isNone
  | some v => !v.truthy

/-- A priority field value outside the enumeration (or absent). -/
def badPriority : Option Json → Bool
  | none => true
  | some (Json.str s) => decide (s ∉ PRIORITY_LABELS)
  | some _ => true

/-- A task that is a fixpoint of the load normalization: truthy id,
stripped non-empty title, a date string written by `isoformat` for a
parseable date, a priority from the enumeration, stripped notes. -/
def wellFormedTask (t : Task) : Bool :=
  t.id.truthy &&
  (pyStrip t.title == t.title) && !t.title.isEmpty &&
  (match fromisoformat? t.date with
    | some d => isoformat d == t.date
    | none => false) &&
  decide (t.priority ∈ PRIORITY_LABELS) &&
  (pyStrip t.notes == t.notes)

/-- The backing file carries ids `load_tasks` can keep unique: every
id field is a string, falsy, or absent; the truthy (kept) ids are
pairwise distinct; and no kept id collides with a generated uuid. -/
def FileIdsOk (fresh : Nat → String) (file : FileState) : Prop :=
  match file with
  | .json (.arr items) =>
    idFieldsOk items = true ∧ (truthyIds items).Nodup ∧
    (∀ j ∈ truthyIds items, ∀ n, j ≠ Json.str (fresh n))
  | _ => True

theorem lexComp_refl {α : Type} [BEq α] [LawfulBEq α] (lt : α → α → Bool) (x : α) :
    lexComp lt x x true = true := by
  simp [lexComp]

theorem lexComp_total {α : Type} [BEq α] [LawfulBEq α] (lt : α → α → Bool)
    (hconn : ∀ x y, lt x y = false → lt y x = false → x = y) (x y : α) {r s : Bool}
    (hrs : r = true ∨ s = true) :
    lexComp lt x y r = true ∨ lexComp lt y x s = true := by
  cases hxy : lt x y
  · cases hyx : lt y x
    · obtain rfl := hconn x y hxy hyx
      simpa [lexComp, hxy] using hrs
    · right
      simp [lexComp, hyx]
  · left
    simp [lexComp, hxy]

theorem lexComp_trans {α : Type} [BEq α] [LawfulBEq α] (lt : α → α → Bool)
    (htr : ∀ x y z, lt x y = true → lt y z = true → lt x z = true)
    {x y z : α} {r s t : Bool} (hrst : r = true → s = true → t = true)
    (h₁ : lexComp lt x y r = true) (h₂ : lexComp lt y z s = true) :
    lexComp lt x z t = true := by
  simp only [lexComp, Bool.or_eq_true, Bool.and_eq_true, beq_iff_eq] at h₁ h₂ ⊢
  rcases h₁ with h₁ | ⟨rfl, h₁⟩ <;> rcases h₂ with h₂ | ⟨rfl, h₂⟩
  · exact Or.inl (htr _ _ _ h₁ h₂)
  · exact Or.inl h₁
  · exact Or.inl h₂
  · exact Or.inr ⟨rfl, hrst h₁ h₂⟩

theorem natBlt_connex (x y : Nat) (h₁ : Nat.blt x y = false) (h₂ : Nat.blt y x = false) :
    x = y := by
  simp only [← Bool.not_eq_true, Nat.blt_eq] at h₁ h₂
  omega

theorem natBlt_trans (x y z : Nat) (h₁ : Nat.blt x y = true) (h₂ : Nat.blt y z = true) :
    Nat.blt x z = true := by
  simp only [Nat.blt_eq] at h₁ h₂ ⊢
  omega

theorem charEq_of_toNat_eq {a b : Char} (h : a.toNat = b.toNat) : a = b :=
  Char.eq_of_val_eq (UInt32.ext h)

theorem pyCharsLt_trans :
    ∀ a b c : List Char, pyCharsLt a b = true → pyCharsLt b c = true → pyCharsLt a c = true
  | [], b, c, h₁, h₂ => by cases b <;> cases c <;> simp_all [pyCharsLt]
  | _ :: _, [], _, h₁, _ => by simp [pyCharsLt] at h₁
  | _ :: _, _ :: _, [], _, h₂ => by simp [pyCharsLt] at h₂
  | x :: xs, y :: ys, z :: zs, h₁, h₂ => by
    simp only [pyCharsLt, Bool.or_eq_true, Bool.and_eq_true, beq_iff_eq, Nat.blt_eq] at h₁ h₂ ⊢
    rcases h₁ with h₁ | ⟨rfl, h₁⟩ <;> rcases h₂ with h₂ | ⟨rfl, h₂⟩
    · exact Or.inl (Nat.lt_trans h₁ h₂)
    · exact Or.inl h₁
    · exact Or.inl h₂
    · exact Or.inr ⟨rfl, pyCharsLt_trans xs ys zs h₁ h₂⟩

theorem pyCharsLt_connex :
    ∀ a b : List Char, pyCharsLt a b = false → pyCharsLt b a = false → a = b
  | [], [], _, _ => rfl
  | [], _ :: _, h₁, _ => by simp [pyCharsLt] at h₁
  | _ :: _, [], _, h₂ => by simp [pyCharsLt] at h₂
  | x :: xs, y :: ys, h₁, h₂ => by
    simp only [pyCharsLt, Bool.or_eq_false_iff, Bool.and_eq_false_iff] at h₁ h₂
    obtain ⟨hxy, h₁⟩ := h₁
    obtain ⟨hyx, h₂⟩ := h₂
    obtain rfl : x = y := charEq_of_toNat_eq (natBlt_connex _ _ hxy hyx)
    rcases h₁ with h₁ | h₁
    · simp at h₁
    · rcases h₂ with h₂ | h₂
      · simp at h₂
      · rw [pyCharsLt_connex xs ys h₁ h₂]

theorem pyStrLt_trans (a b c : String) (h₁ : pyStrLt a b = true) (h₂ : pyStrLt b c = true) :
    pyStrLt a c = true :=
  pyCharsLt_trans a.data b.data c.data h₁ h₂

theorem pyStrLt_connex (a b : String) (h₁ : pyStrLt a b = false) (h₂ : pyStrLt b a = false) :
    a = b := by
  cases a
  cases b
  have := pyCharsLt_connex _ _ h₁ h₂
  simp_all

theorem skLe_refl (a : SortKey) : skLe a a = true := by
  simp [skLe, lexComp]

theorem skLe_total (a b : SortKey) : skLe a b = true ∨ skLe b a = true := by
  unfold skLe
  apply lexComp_total Nat.blt natBlt_connex
  apply lexComp_total Nat.blt natBlt_connex
  apply lexComp_total Nat.blt natBlt_connex
  apply lexComp_total Nat.blt natBlt_connex
  apply lexComp_total pyStrLt pyStrLt_connex
  exact Or.inl rfl

theorem skLe_trans {a b c : SortKey} (h₁ : skLe a b = true) (h₂ : skLe b c = true) :
    skLe a c = true := by
  unfold skLe at h₁ h₂ ⊢
  refine lexComp_trans Nat.blt natBlt_trans ?_ h₁ h₂
  intro h₁ h₂
  refine lexComp_trans Nat.blt natBlt_trans ?_ h₁ h₂
  intro h₁ h₂
  refine lexComp_trans Nat.blt natBlt_trans ?_ h₁ h₂
  intro h₁ h₂
  refine lexComp_trans Nat.blt natBlt_trans ?_ h₁ h₂
  intro h₁ h₂
  refine lexComp_trans pyStrLt pyStrLt_trans ?_ h₁ h₂
  intro _ _
  rfl

theorem filter_orderedInsert_pos (today : PyDate) (p : Task → Bool) (t : Task)
    (hpt : p t = true) (hskip : ∀ b, ¬ taskLe today t b → p b = false) :
    ∀ l : List Task, (List.orderedInsert (taskLe today) t l).filter p = t :: l.filter p
  | [] => by simp [List.orderedInsert, hpt]
  | b :: l => by
    by_cases h : taskLe today t b
    · simp [List.orderedInsert, if_pos h, List.filter_cons, hpt]
    · have hb : p b = false := hskip b h
      simp [List.orderedInsert, if_neg h, List.filter_cons, hb,
        filter_orderedInsert_pos today p t hpt hskip l]

theorem filter_orderedInsert_neg (today : PyDate) (p : Task → Bool) (t : Task)
    (hpt : p t = false) :
    ∀ l : List Task, (List.orderedInsert (taskLe today) t l).filter p = l.filter p
  | [] => by simp [List.orderedInsert, hpt]
  | b :: l => by
    by_cases h : taskLe today t b
    · simp [List.orderedInsert, if_pos h, List.filter_cons, hpt]
    · simp [List.orderedInsert, if_neg h, List.filter_cons,
        filter_orderedInsert_neg today p t hpt l]

theorem filter_sort_tasks (today : PyDate) (p : Task → Bool)
    (hp : ∀ a b, p a = true → p b = true → taskLe today a b) :
    ∀ l : List Task, (sort_tasks today l).filter p = l.filter p
  | [] => rfl
  | t :: l => by
    have ih : (List.insertionSort (taskLe today) l).filter p = l.filter p :=
      filter_sort_tasks today p hp l
    show (List.orderedInsert (taskLe today) t
      (List.insertionSort (taskLe today) l)).filter p = _
    cases hpt : p t with
    | true =>
      rw [filter_orderedInsert_pos today p t hpt (fun b hnb => by
        cases hpb : p b with
        | true => exact absurd (hp t b hpt hpb) hnb
        | false => rfl), ih]
      simp [List.filter_cons, hpt]
    | false =>
      rw [filter_orderedInsert_neg today p t hpt, ih]
      simp [List.filter_cons, hpt]

/-- Claim C2: `sort_tasks` returns a permutation of its input ordered
by ascending date, then ascending priority rank (P0 first), then
case-insensitive title; it is total (defined on every input) and
stable (tasks with equal keys keep their input order, stated as the
preservation of every equal-key fibre). -/
theorem C2_sort_tasks_correct (today : PyDate) (tasks : List Task) :
    (sort_tasks today tasks).Perm tasks ∧
    (sort_tasks today tasks).Sorted (taskLe today) ∧
    (∀ k, (sort_tasks today tasks).filter (fun t => sortKey today t == k) =
      tasks.filter (fun t => sortKey today t == k)) := by
  refine ⟨List.perm_insertionSort _ tasks, ?_, ?_⟩
  · haveI : IsTotal Task (taskLe today) := ⟨fun a b => skLe_total _ _⟩
    haveI : IsTrans Task (taskLe today) := ⟨fun _ _ _ => skLe_trans⟩
    exact List.sorted_insertionSort _ tasks
  · intro k
    refine filter_sort_tasks today _ (fun a b hpa hpb => ?_) tasks
    have ha : sortKey today a = k := by simpa using hpa
    have hb : sortKey today b = k := by simpa using hpb
    unfold taskLe
    rw [ha, hb]
    exact skLe_refl k

theorem natBlt_irrefl (x : Nat) : Nat.blt x x = false := by
  simp only [← Bool.not_eq_true, Nat.blt_eq]
  omega

theorem pdLt_irrefl (a : PyDate) : pdLt a a = false := by
  simp [pdLt, lexComp, natBlt_irrefl]

theorem daysInMonth_le (y m : Nat) : daysInMonth y m ≤ 31 := by
  unfold daysInMonth
  split_ifs <;> omega

theorem charDigit_digitChar : ∀ n : Nat, n < 10 → charDigit? (digitChar n) = some n := by
  decide

theorem parseIso_digits (y m dd : Nat) (hv : validDate ⟨y, m, dd⟩ = true) :
    parseIso (fourDigits y ++ '-' :: twoDigits m ++ '-' :: twoDigits dd) = some ⟨y, m, dd⟩ := by
  have hb := hv
  simp only [validDate, Bool.and_eq_true, decide_eq_true_iff] at hb
  obtain ⟨⟨⟨⟨⟨hy1, hy2⟩, hm1⟩, hm2⟩, hd1⟩, hd2⟩ := hb
  have hdm : daysInMonth y m ≤ 31 := daysInMonth_le y m
  have ey : y / 1000 % 10 * 1000 + y / 100 % 10 * 100 + y / 10 % 10 * 10 + y % 10 = y := by
    omega
  have em : m / 10 % 10 * 10 + m % 10 = m := by omega
  have ed : dd / 10 % 10 * 10 + dd % 10 = dd := by omega
  simp only [fourDigits, twoDigits, List.cons_append, List.nil_append, parseIso]
  rw [if_pos ⟨trivial, trivial⟩]
  rw [charDigit_digitChar (y / 1000 % 10) (by omega),
    charDigit_digitChar (y / 100 % 10) (by omega),
    charDigit_digitChar (y / 10 % 10) (by omega),
    charDigit_digitChar (y % 10) (by omega),
    charDigit_digitChar (m / 10 % 10) (by omega),
    charDigit_digitChar (m % 10) (by omega),
    charDigit_digitChar (dd / 10 % 10) (by omega),
    charDigit_digitChar (dd % 10) (by omega)]
  simp only [ey, em, ed, hv]
  rfl

theorem fromisoformat_isoformat (d : PyDate) (hv : validDate d = true) :
    fromisoformat? (isoformat d) = some d := by
  obtain ⟨y, m, dd⟩ := d
  exact parseIso_digits y m dd hv

theorem validDate_of_fromisoformat {s : String} {d : PyDate}
    (h : fromisoformat? s = some d) : validDate d = true := by
  unfold fromisoformat? parseIso at h
  split at h
  · split at h
    · split at h
      · split at h
        · injection h with h'
          subst h'
          assumption
        · exact absurd h (by simp)
      · exact absurd h (by simp)
    · exact absurd h (by simp)
  · exact absurd h (by simp)

theorem fromisoformat_isEmpty {s : String} (h : s.isEmpty = true) : fromisoformat? s = none := by
  obtain rfl : s = "" := (String.isEmpty_iff s).mp h
  rfl

theorem overdue_eq (today : PyDate) (t : Task) :
    overdue today t = (!t.done && pdLt (iso_to_date_str today t.date) today) := by
  unfold overdue iso_to_date_str
  cases hEmpty : t.date.isEmpty
  · cases hp : fromisoformat? t.date
    · simp [hp, pdLt_irrefl, hEmpty]
    · simp [hp, hEmpty]
  · have hnone := fromisoformat_isEmpty hEmpty
    simp [hnone, hEmpty, pdLt_irrefl]

theorem carryLoop_spec (today : PyDate) :
    ∀ tasks : List Task,
      (carryLoop today tasks).1 =
        tasks.map (fun t => if overdue today t then { t with date := isoformat today } else t) ∧
      (carryLoop today tasks).2 = (tasks.filter (overdue today)).length
  | [] => ⟨rfl, rfl⟩
  | t :: ts => by
    obtain ⟨ih1, ih2⟩ := carryLoop_spec today ts
    simp only [carryLoop, List.map_cons, List.filter_cons, overdue_eq]
    cases hd : t.done <;> cases hp : pdLt (iso_to_date_str today t.date) today <;>
      simp [hd, hp, ih1, ih2, overdue_eq]

/-- Claim C1: `carry_over_unfinished(tasks, today)` sets `date :=
today` for exactly the tasks with `done == false` and date before
today, leaves every other task (done tasks included) unchanged,
returns the number of tasks changed, and writes the full collection
through `save_tasks` if and only if that count is positive. -/
theorem C1_carry_over_unfinished_correct (today : PyDate) (tasks : List Task)
    (file : FileState) :
    (carry_over_unfinished today tasks file).1 =
      tasks.map (fun t => if overdue today t then { t with date := isoformat today } else t) ∧
    (carry_over_unfinished today tasks file).2.1 =
      (tasks.filter (overdue today)).length ∧
    (carry_over_unfinished today tasks file).2.2 =
      (if (tasks.filter (overdue today)).length = 0 then file
       else save_tasks ((carry_over_unfinished today tasks file).1)) := by
  obtain ⟨h1, h2⟩ := carryLoop_spec today tasks
  refine ⟨h1, h2, ?_⟩
  simp only [carry_over_unfinished, h2]

theorem assocGet_taskFields_id (t : Task) : assocGet (taskFields t) "id" = some t.id := rfl

theorem assocGet_taskFields_title (t : Task) :
    assocGet (taskFields t) "title" = some (Json.str t.title) := rfl

theorem assocGet_taskFields_date (t : Task) :
    assocGet (taskFields t) "date" = some (Json.str t.date) := rfl

theorem assocGet_taskFields_priority (t : Task) :
    assocGet (taskFields t) "priority" = some (Json.str t.priority) := rfl

theorem assocGet_taskFields_notes (t : Task) :
    assocGet (taskFields t) "notes" = some (Json.str t.notes) := rfl

theorem assocGet_taskFields_done (t : Task) :
    assocGet (taskFields t) "done" = some (Json.bool t.done) := rfl

theorem isoformat_isEmpty (d : PyDate) : (isoformat d).isEmpty = false := by
  cases h : (isoformat d).isEmpty
  · rfl
  · obtain h2 := (String.isEmpty_iff _).mp h
    have h3 : (isoformat d).data = [] := by rw [h2]
    simp [isoformat, fourDigits] at h3

theorem normalizeItem_ok {today : PyDate} {fid : String} {fields : List (String × Json)}
    {t : Task} {b : Bool} (h : normalizeItem today fid fields = .ok (t, b)) :
    ∃ d, normDate today (assocGet fields "date") = .ok d ∧
      t = { id := (normId (assocGet fields "id") fid).1,
            title := normTitle (assocGet fields "title"),
            date := isoformat d,
            priority := normPriority (assocGet fields "priority"),
            notes := normNotes (assocGet fields "notes"),
            done := normDone (assocGet fields "done") } ∧
      b = (normId (assocGet fields "id") fid).2 := by
  unfold normalizeItem at h
  cases hnd : normDate today (assocGet fields "date") with
  | error e =>
    rw [hnd] at h
    exact Except.noConfusion h
  | ok d =>
    rw [hnd] at h
    injection h with h'
    injection h' with h1 h2
    exact ⟨d, rfl, h1.symm, h2.symm⟩

theorem normPriority_bad (v : Option Json) (hb : badPriority v = true) :
    normPriority v = "P2" := by
  cases v with
  | none => rfl
  | some j =>
    cases j with
    | str s =>
      simp only [badPriority, decide_eq_true_iff] at hb
      show (if s ∈ PRIORITY_LABELS then s else "P2") = "P2"
      rw [if_neg hb]
    | null => rfl
    | bool b => rfl
    | num n => rfl
    | arr xs => rfl
    | obj fs => rfl

theorem normPriority_mem (v : Option Json) : normPriority v ∈ PRIORITY_LABELS := by
  have hP2 : ("P2" : String) ∈ PRIORITY_LABELS := by decide
  cases v with
  | none => exact hP2
  | some j =>
    cases j with
    | str s =>
      show (if s ∈ PRIORITY_LABELS then s else "P2") ∈ PRIORITY_LABELS
      by_cases hs : s ∈ PRIORITY_LABELS
      · rw [if_pos hs]
        exact hs
      · rw [if_neg hs]
        exact hP2
    | null => exact hP2
    | bool b => exact hP2
    | num n => exact hP2
    | arr xs => exact hP2
    | obj fs => exact hP2

theorem normalizeItem_roundtrip (today : PyDate) (fid : String) (t : Task)
    (hwf : wellFormedTask t = true) :
    normalizeItem today fid (taskFields t) = .ok (t, false) := by
  have hb := hwf
  simp only [wellFormedTask, Bool.and_eq_true] at hb
  obtain ⟨⟨⟨⟨⟨hid, htitle⟩, hne⟩, hdate⟩, hpri⟩, hnotes⟩ := hb
  have htitle' : pyStrip t.title = t.title := by simpa using htitle
  have hnotes' : pyStrip t.notes = t.notes := by simpa using hnotes
  have hne' : t.title.isEmpty = false := by simpa using hne
  have hpri' : t.priority ∈ PRIORITY_LABELS := by simpa using hpri
  obtain ⟨d, hpd, hiso⟩ : ∃ d, fromisoformat? t.date = some d ∧ isoformat d = t.date := by
    cases hp : fromisoformat? t.date with
    | none => rw [hp] at hdate; simp at hdate
    | some d =>
      rw [hp] at hdate
      exact ⟨d, rfl, by simpa using hdate⟩
  have hdE : t.date.isEmpty = false := by
    cases hE : t.date.isEmpty
    · rfl
    · rw [fromisoformat_isEmpty hE] at hpd
      exact Option.noConfusion hpd
  have hnd : normDate today (assocGet (taskFields t) "date") = .ok d := by
    rw [assocGet_taskFields_date]
    simp [normDate, iso_to_date, iso_to_date_str, hdE, hpd]
  unfold normalizeItem
  rw [hnd, assocGet_taskFields_id, assocGet_taskFields_title, assocGet_taskFields_priority,
    assocGet_taskFields_notes, assocGet_taskFields_done]
  have hidN : normId (some t.id) fid = (t.id, false) := by simp [normId, hid]
  have htit : normTitle (some (Json.str t.title)) = t.title := by
    simp [normTitle, pyStr, htitle', hne']
  have hprN : normPriority (some (Json.str t.priority)) = t.priority := by
    show (if t.priority ∈ PRIORITY_LABELS then t.priority else "P2") = t.priority
    rw [if_pos hpri']
  have hnoN : normNotes (some (Json.str t.notes)) = t.notes := by
    simp [normNotes, pyStr, hnotes']
  have hdoN : normDone (some (Json.bool t.done)) = t.done := rfl
  dsimp only
  rw [hidN, htit, hprN, hnoN, hdoN, hiso]

theorem load_items_saved (today : PyDate) (fresh : Nat → String) :
    ∀ (tasks : List Task) (k : Nat), (∀ t ∈ tasks, wellFormedTask t = true) →
      load_items today fresh (tasks.map taskToJson) k = .ok tasks
  | [], _, _ => rfl
  | t :: ts, k, h => by
    have hwf := h t (List.mem_cons_self t ts)
    have ih := load_items_saved today fresh ts k (fun u hu => h u (List.mem_cons_of_mem t hu))
    simp only [List.map_cons, load_items, taskToJson]
    rw [normalizeItem_roundtrip today (fresh k) t hwf]
    simp only [Bool.false_eq_true, if_false]
    rw [ih]

/-- Claim C5: `save_tasks` followed by `load_tasks` returns exactly
the same collection for every well-formed (already normalized)
collection; the order is even preserved, so equality holds without
re-ordering. -/
theorem C5_save_load_roundtrip (today : PyDate) (fresh : Nat → String) (tasks : List Task)
    (h : ∀ t ∈ tasks, wellFormedTask t = true) :
    load_tasks today fresh (save_tasks tasks) = .ok tasks := by
  unfold load_tasks save_tasks pyIter?
  exact load_items_saved today fresh tasks 0 h

/-- Witness for C5 at a concrete well-formed two-task collection. -/
theorem C5_save_load_roundtrip_witness :
    load_tasks ⟨2024, 3, 5⟩ (fun _ => "u")
      (save_tasks [⟨Json.str "a1", "Buy milk", "2024-03-01", "P1", "note", false⟩,
                   ⟨Json.str "b2", "Call Ann", "2024-12-31", "P0", "", true⟩]) =
    .ok [⟨Json.str "a1", "Buy milk", "2024-03-01", "P1", "note", false⟩,
         ⟨Json.str "b2", "Call Ann", "2024-12-31", "P0", "", true⟩] :=
  C5_save_load_roundtrip ⟨2024, 3, 5⟩ (fun _ => "u") _ (by decide)

/-- Claim C8: a raw record whose priority field is missing or holds
any value outside the enumeration normalizes to `P2`, and every
normalized priority lies in the enumeration. -/
theorem C8_priority_normalization (today : PyDate) (fid : String)
    (fields : List (String × Json)) (t : Task) (b : Bool)
    (h : normalizeItem today fid fields = .ok (t, b)) :
    (badPriority (assocGet fields "priority") = true → t.priority = "P2") ∧
    t.priority ∈ PRIORITY_LABELS := by
  obtain ⟨d, hnd, rfl, rfl⟩ := normalizeItem_ok h
  exact ⟨fun hb => normPriority_bad _ hb, normPriority_mem _⟩

/-- Witness for C8 at a record with a non-string priority value. -/
theorem C8_priority_normalization_witness :
    (Task.priority ⟨Json.str "u", "Untitled task", "2024-03-01", "P2", "", false⟩ = "P2") ∧
    Task.priority ⟨Json.str "u", "Untitled task", "2024-03-01", "P2", "", false⟩ ∈
      PRIORITY_LABELS :=
  ⟨(C8_priority_normalization ⟨2024, 3, 1⟩ "u" [("priority", Json.num 3)] _ _ rfl).1 (by decide),
   (C8_priority_normalization ⟨2024, 3, 1⟩ "u" [("priority", Json.num 3)] _ _ rfl).2⟩

theorem normDate_safe (today : PyDate) (v : Option Json) (hs : safeDateVal v = true) :
    ∃ d, normDate today v = .ok d := by
  cases v with
  | none => exact ⟨_, rfl⟩
  | some j =>
    cases j with
    | str s => exact ⟨_, rfl⟩
    | null => exact ⟨_, rfl⟩
    | bool b =>
      have hb : b = false := by simpa [safeDateVal, Json.truthy] using hs
      subst hb
      exact ⟨_, rfl⟩
    | num n =>
      have hn : n = 0 := by simpa [safeDateVal, Json.truthy] using hs
      subst hn
      exact ⟨_, rfl⟩
    | arr xs =>
      have hx : xs = [] := by simpa [safeDateVal, Json.truthy] using hs
      subst hx
      exact ⟨_, rfl⟩
    | obj fs =>
      have hx : fs = [] := by simpa [safeDateVal, Json.truthy] using hs
      subst hx
      exact ⟨_, rfl⟩

theorem normalizeItem_safe (today : PyDate) (fid : String) (fields : List (String × Json))
    (hs : safeDateVal (assocGet fields "date") = true) :
    ∃ tb, normalizeItem today fid fields = .ok tb := by
  obtain ⟨d, hd⟩ := normDate_safe today _ hs
  refine ⟨({ id := (normId (assocGet fields "id") fid).1,
             title := normTitle (assocGet fields "title"),
             date := isoformat d,
             priority := normPriority (assocGet fields "priority"),
             notes := normNotes (assocGet fields "notes"),
             done := normDone (assocGet fields "done") },
           (normId (assocGet fields "id") fid).2), ?_⟩
  unfold normalizeItem
  rw [hd]

theorem load_items_safe (today : PyDate) (fresh : Nat → String) :
    ∀ (items : List Json) (k : Nat), items.all safeItem = true →
      ∃ ts, load_items today fresh items k = .ok ts
  | [], _, _ => ⟨[], rfl⟩
  | j :: rest, k, h => by
    have hj : safeItem j = true := by
      simp only [List.all_cons, Bool.and_eq_true] at h
      exact h.1
    have hrest : rest.all safeItem = true := by
      simp only [List.all_cons, Bool.and_eq_true] at h
      exact h.2
    cases j with
    | obj fs =>
      obtain ⟨⟨t, b⟩, hn⟩ := normalizeItem_safe today (fresh k) fs (by simpa [safeItem] using hj)
      obtain ⟨ts, hts⟩ := load_items_safe today fresh rest (if b then k + 1 else k) hrest
      exact ⟨t :: ts, by simp [load_items, hn, hts]⟩
    | null => exact load_items_safe today fresh rest k hrest
    | bool b => exact load_items_safe today fresh rest k hrest
    | num n => exact load_items_safe today fresh rest k hrest
    | str s => exact load_items_safe today fresh rest k hrest
    | arr xs => exact load_items_safe today fresh rest k hrest

theorem load_items_no_obj (today : PyDate) (fresh : Nat → String) :
    ∀ (items : List Json) (k : Nat), (∀ j ∈ items, ∀ fs, j ≠ Json.obj fs) →
      load_items today fresh items k = .ok []
  | [], _, _ => rfl
  | j :: rest, k, h => by
    have hrest := load_items_no_obj today fresh rest k
      (fun u hu => h u (List.mem_cons_of_mem _ hu))
    cases j with
    | obj fs => exact absurd rfl (h _ (List.mem_cons_self _ _) fs)
    | null => exact hrest
    | bool b => exact hrest
    | num n => exact hrest
    | str s => exact hrest
    | arr xs => exact hrest

/-- Claim C3 (amended): `load_tasks` returns a sequence and raises no
error when the file is absent, when it holds syntactically invalid
JSON, and when the parsed top level is a string, an object, or an
array whose object elements carry only safe (absent, falsy, or
string) date fields.  The claim as stated is false: a valid-JSON
non-iterable top level (null, boolean, number) raises `TypeError`, as
does a truthy non-string date field. -/
theorem C3_load_tasks_error_handling (today : PyDate) (fresh : Nat → String) :
    load_tasks today fresh .absent = .ok [] ∧
    load_tasks today fresh .invalid = .ok [] ∧
    (∀ s, load_tasks today fresh (.json (.str s)) = .ok []) ∧
    (∀ fs, load_tasks today fresh (.json (.obj fs)) = .ok []) ∧
    (∀ items, items.all safeItem = true →
      exceptOk (load_tasks today fresh (.json (.arr items))) = true) := by
  refine ⟨rfl, rfl, ?_, ?_, ?_⟩
  · intro s
    refine load_items_no_obj today fresh _ 0 ?_
    intro j hj fs hjf
    subst hjf
    simp at hj
  · intro fs
    refine load_items_no_obj today fresh _ 0 ?_
    intro j hj fs2 hjf
    subst hjf
    simp at hj
  · intro items h
    obtain ⟨ts, hts⟩ := load_items_safe today fresh items 0 h
    show exceptOk (load_items today fresh items 0) = true
    rw [hts]
    rfl

/-- Counterexample to claim C3 as stated: a backing file holding the
valid JSON `5` makes `load_tasks` raise `TypeError` when the loaded
value is iterated. -/
theorem C3_counterexample :
    load_tasks ⟨2024, 3, 1⟩ (fun _ => "u") (.json (.num 5)) = .error () := rfl

/-- Witness for C3 (amended) at concrete file states. -/
theorem C3_witness :
    load_tasks ⟨2024, 3, 1⟩ (fun _ => "u") FileState.absent = .ok [] ∧
    load_tasks ⟨2024, 3, 1⟩ (fun _ => "u") FileState.invalid = .ok [] ∧
    load_tasks ⟨2024, 3, 1⟩ (fun _ => "u") (.json (.str "oops")) = .ok [] ∧
    load_tasks ⟨2024, 3, 1⟩ (fun _ => "u") (.json (.obj [("a", Json.num 1)])) = .ok [] ∧
    exceptOk (load_tasks ⟨2024, 3, 1⟩ (fun _ => "u")
      (.json (.arr [Json.obj [("date", Json.str "x")], Json.num 7]))) = true :=
  ⟨(C3_load_tasks_error_handling ⟨2024, 3, 1⟩ (fun _ => "u")).1,
   (C3_load_tasks_error_handling ⟨2024, 3, 1⟩ (fun _ => "u")).2.1,
   (C3_load_tasks_error_handling ⟨2024, 3, 1⟩ (fun _ => "u")).2.2.1 "oops",
   (C3_load_tasks_error_handling ⟨2024, 3, 1⟩ (fun _ => "u")).2.2.2.1 [("a", Json.num 1)],
   (C3_load_tasks_error_handling ⟨2024, 3, 1⟩ (fun _ => "u")).2.2.2.2
     [Json.obj [("date", Json.str "x")], Json.num 7] (by decide)⟩

theorem normDate_fallback (today : PyDate) (hvt : validDate today = true) (v : Option Json)
    (hf : fallbackDate v = true) : normDate today v = .ok today := by
  cases v with
  | none =>
    show iso_to_date today (Json.str (isoformat today)) = .ok today
    simp [iso_to_date, iso_to_date_str, isoformat_isEmpty, fromisoformat_isoformat today hvt]
  | some j =>
    cases j with
    | str s =>
      show iso_to_date today (Json.str s) = .ok today
      have hf2 : s.isEmpty = true ∨ (fromisoformat? s).isNone = true := by
        simpa [fallbackDate, Bool.or_eq_true] using hf
      rcases hf2 with hE | hN
      · simp [iso_to_date, iso_to_date_str, hE]
      · cases hE2 : s.isEmpty
        · have hn : fromisoformat? s = none := by simpa [Option.isNone_iff_eq_none] using hN
          simp [iso_to_date, iso_to_date_str, hE2, hn]
        · simp [iso_to_date, iso_to_date_str, hE2]
    | null => rfl
    | bool b =>
      have hb : b = false := by simpa [fallbackDate, Json.truthy] using hf
      subst hb
      rfl
    | num n =>
      have hn : n = 0 := by simpa [fallbackDate, Json.truthy] using hf
      subst hn
      rfl
    | arr xs =>
      have hx : xs = [] := by simpa [fallbackDate, Json.truthy] using hf
      subst hx
      rfl
    | obj fs =>
      have hx : fs = [] := by simpa [fallbackDate, Json.truthy] using hf
      subst hx
      rfl

theorem iso_to_date_valid {today : PyDate} (hvt : validDate today = true) {w : Json}
    {d : PyDate} (h : iso_to_date today w = .ok d) : validDate d = true := by
  cases w with
  | str s =>
    have h' : Except.ok (iso_to_date_str today s) = Except.ok d := h
    injection h' with h2
    subst h2
    unfold iso_to_date_str
    cases hE : s.isEmpty
    · cases hp : fromisoformat? s with
      | none => simp [hp, hE, hvt]
      | some dd => simp [hp, hE, validDate_of_fromisoformat hp]
    · simp [hE, hvt]
  | null =>
    have h' : Except.ok today = Except.ok d := h
    injection h' with h2
    subst h2
    exact hvt
  | bool b =>
    cases b with
    | false =>
      have h' : Except.ok today = Except.ok d := h
      injection h' with h2
      subst h2
      exact hvt
    | true => exact Except.noConfusion h
  | num n =>
    by_cases hn : n = 0
    · subst hn
      have h' : Except.ok today = Except.ok d := h
      injection h' with h2
      subst h2
      exact hvt
    · have ht : (n != 0) = true := by simpa using hn
      have h' : (if (n != 0) = true then (Except.error () : Except Unit PyDate)
          else Except.ok today) = Except.ok d := h
      rw [ht] at h'
      simp at h'
  | arr xs =>
    cases xs with
    | nil =>
      have h' : Except.ok today = Except.ok d := h
      injection h' with h2
      subst h2
      exact hvt
    | cons a as => exact Except.noConfusion h
  | obj fs =>
    cases fs with
    | nil =>
      have h' : Except.ok today = Except.ok d := h
      injection h' with h2
      subst h2
      exact hvt
    | cons a as => exact Except.noConfusion h

theorem normDate_valid {today : PyDate} (hvt : validDate today = true) {v : Option Json}
    {d : PyDate} (h : normDate today v = .ok d) : validDate d = true := by
  cases v with
  | none => exact iso_to_date_valid hvt h
  | some j => exact iso_to_date_valid hvt h

theorem normDate_error {v : Json} (htr : v.truthy = true) (hns : ∀ s, v ≠ Json.str s)
    (today : PyDate) : normDate today (some v) = .error () := by
  cases v with
  | str s => exact absurd rfl (hns s)
  | null => simp [Json.truthy] at htr
  | bool b =>
    have hb : b = true := by simpa [Json.truthy] using htr
    subst hb
    rfl
  | num n =>
    have hn : (n != 0) = true := htr
    show (if (n != 0) = true then (Except.error () : Except Unit PyDate) else Except.ok today) =
      .error ()
    rw [hn]
    rfl
  | arr xs =>
    have hx : xs.isEmpty = false := by simpa [Json.truthy] using htr
    show (if xs.isEmpty = true then (Except.ok today : Except Unit PyDate) else .error ()) =
      .error ()
    rw [hx]
    rfl
  | obj fs =>
    have hx : fs.isEmpty = false := by simpa [Json.truthy] using htr
    show (if fs.isEmpty = true then (Except.ok today : Except Unit PyDate) else .error ()) =
      .error ()
    rw [hx]
    rfl

/-- Claim C9 (amended): during load, a date field that is missing,
falsy (empty string included), or an unparseable string normalizes to
the current date, and every successfully normalized task carries a
parseable date; but the claim as stated is false: a truthy non-string
date value raises an uncaught `TypeError` instead of falling back. -/
theorem C9_date_normalization (today : PyDate) (fid : String)
    (fields : List (String × Json)) (hvt : validDate today = true) :
    (∀ t b, normalizeItem today fid fields = .ok (t, b) →
      (fallbackDate (assocGet fields "date") = true → t.date = isoformat today) ∧
      (fromisoformat? t.date).isSome = true) ∧
    (∀ v, assocGet fields "date" = some v → v.truthy = true →
      (∀ s, v ≠ Json.str s) → normalizeItem today fid fields = .error ()) := by
  constructor
  · intro t b h
    obtain ⟨d, hnd, rfl, rfl⟩ := normalizeItem_ok h
    constructor
    · intro hf
      rw [normDate_fallback today hvt _ hf] at hnd
      injection hnd with h'
      dsimp only
      rw [← h']
    · have hd := normDate_valid hvt hnd
      dsimp only
      rw [fromisoformat_isoformat d hd]
      rfl
  · intro v hv htr hns
    unfold normalizeItem
    rw [hv, normDate_error htr hns today]

/-- Counterexample to claim C9 as stated: a record whose date field
is the JSON number 1 (not a parseable date) does not normalize to the
current date; `load_tasks` raises `TypeError`. -/
theorem C9_counterexample :
    load_tasks ⟨2024, 3, 1⟩ (fun _ => "u") (.json (.arr [.obj [("date", Json.num 1)]])) =
      .error () := rfl

/-- Witness for C9 (amended) at a record with an unparseable string
date and at a record with a truthy non-string date. -/
theorem C9_witness :
    Task.date ⟨Json.str "u", "Untitled task", "2024-03-01", "P2", "", false⟩ =
      isoformat ⟨2024, 3, 1⟩ ∧
    (fromisoformat? (Task.date
      ⟨Json.str "u", "Untitled task", "2024-03-01", "P2", "", false⟩)).isSome = true ∧
    normalizeItem ⟨2024, 3, 1⟩ "u" [("date", Json.bool true)] = .error () :=
  ⟨((C9_date_normalization ⟨2024, 3, 1⟩ "u" [("date", Json.str "nope")] (by decide)).1
      ⟨Json.str "u", "Untitled task", "2024-03-01", "P2", "", false⟩ true rfl).1 (by decide),
   ((C9_date_normalization ⟨2024, 3, 1⟩ "u" [("date", Json.str "nope")] (by decide)).1
      ⟨Json.str "u", "Untitled task", "2024-03-01", "P2", "", false⟩ true rfl).2,
   (C9_date_normalization ⟨2024, 3, 1⟩ "u" [("date", Json.bool true)] (by decide)).2
      (Json.bool true) rfl rfl (fun s h => Json.noConfusion h)⟩

theorem load_items_skip (today : PyDate) (fresh : Nat → String) (j : Json)
    (hj : ∀ fs, j ≠ Json.obj fs) :
    ∀ (pre post : List Json) (k : Nat),
      load_items today fresh (pre ++ j :: post) k = load_items today fresh (pre ++ post) k
  | [], post, k => by
    cases j with
    | obj fs => exact absurd rfl (hj fs)
    | null => rfl
    | bool b => rfl
    | num n => rfl
    | str s => rfl
    | arr xs => rfl
  | p :: pre, post, k => by
    cases p with
    | obj fs =>
      cases hn : normalizeItem today (fresh k) fs with
      | error e => simp [load_items, hn]
      | ok tb =>
        simp [load_items, hn,
          load_items_skip today fresh j hj pre post (if tb.2 then k + 1 else k)]
    | null => exact load_items_skip today fresh j hj pre post k
    | bool b => exact load_items_skip today fresh j hj pre post k
    | num n => exact load_items_skip today fresh j hj pre post k
    | str s => exact load_items_skip today fresh j hj pre post k
    | arr xs => exact load_items_skip today fresh j hj pre post k

/-- Claim C10: when the backing file holds a JSON array, `load_tasks`
silently skips every non-object element: removing such an element
from the array does not change the result, so it produces no task and
raises no error. -/
theorem C10_load_skips_non_dicts (today : PyDate) (fresh : Nat → String)
    (pre post : List Json) (j : Json) (hj : ∀ fs, j ≠ Json.obj fs) :
    load_tasks today fresh (.json (.arr (pre ++ j :: post))) =
      load_tasks today fresh (.json (.arr (pre ++ post))) :=
  load_items_skip today fresh j hj pre post 0

/-- Witness for C10: a number inside the array is dropped. -/
theorem C10_witness :
    load_tasks ⟨2024, 3, 1⟩ (fun _ => "u")
      (.json (.arr ([Json.obj []] ++ Json.num 7 :: [Json.obj [("id", Json.str "b")]]))) =
    load_tasks ⟨2024, 3, 1⟩ (fun _ => "u")
      (.json (.arr ([Json.obj []] ++ [Json.obj [("id", Json.str "b")]]))) :=
  C10_load_skips_non_dicts ⟨2024, 3, 1⟩ (fun _ => "u") [Json.obj []]
    [Json.obj [("id", Json.str "b")]] (Json.num 7) (fun _ h => Json.noConfusion h)

theorem pyStrip_all_ws (s : String) (h : s.data.all pyWhitespace = true) : pyStrip s = "" := by
  unfold pyStrip
  have h1 : s.data.dropWhile pyWhitespace = [] := by
    rw [List.dropWhile_eq_nil_iff]
    intro x hx
    exact List.all_eq_true.mp h x hx
  rw [h1]
  rfl

/-- Claim C7: when the submitted title consists only of whitespace
(the empty string included), the add-task handler creates no record
and persists nothing: collection and backing file are unchanged. -/
theorem C7_blank_title_add_noop (add : Bool) (title : String) (due : PyDate)
    (priority notes newId : String) (tasks : List Task) (file : FileState)
    (h : title.data.all pyWhitespace = true) :
    add_task_handler add title due priority notes newId tasks file = (tasks, file) := by
  unfold add_task_handler
  rw [pyStrip_all_ws title h]
  have he : ("" : String).isEmpty = true := rfl
  simp [he]

/-- Witness for C7 at a whitespace-only title. -/
theorem C7_witness :
    add_task_handler true "  " ⟨2024, 3, 1⟩ "P2" "" "u" [] FileState.absent =
      ([], FileState.absent) :=
  C7_blank_title_add_noop true "  " ⟨2024, 3, 1⟩ "P2" "" "u" [] FileState.absent (by decide)

/-- Claim C6: `delete_task(id)` removes exactly the tasks carrying
that id and leaves every other task unchanged (stated as the filter
characterization), is a no-op on the collection when no task has the
id, and persists the remainder. -/
theorem C6_delete_task_correct (tasks : List Task) (tid : String) :
    (delete_task tasks tid).1 = tasks.filter (fun t => t.id ≠ Json.str tid) ∧
    ((∀ t ∈ tasks, t.id ≠ Json.str tid) → (delete_task tasks tid).1 = tasks) ∧
    (delete_task tasks tid).2 = save_tasks ((delete_task tasks tid).1) := by
  have h1 : (delete_task tasks tid).1 = tasks.filter (fun t => t.id ≠ Json.str tid) := by
    unfold delete_task
    dsimp only
    apply List.filter_congr
    intro t ht
    simp only [ne_eq, decide_not]
    rfl
  refine ⟨h1, ?_, rfl⟩
  intro h
  rw [h1]
  apply List.filter_eq_self.mpr
  intro t ht
  simpa using h t ht

/-- Witness for C6: deleting an id no task has leaves the collection
unchanged. -/
theorem C6_witness :
    (delete_task [⟨Json.str "a", "t", "2024-03-01", "P2", "", false⟩] "zz").1 =
      [⟨Json.str "a", "t", "2024-03-01", "P2", "", false⟩] :=
  (C6_delete_task_correct [⟨Json.str "a", "t", "2024-03-01", "P2", "", false⟩] "zz").2.1
    (by decide)

theorem truthyIds_cons_non_obj {j : Json} (hj : ∀ fs, j ≠ Json.obj fs) (rest : List Json) :
    truthyIds (j :: rest) = truthyIds rest := by
  cases j with
  | obj fs => exact absurd rfl (hj fs)
  | null => simp [truthyIds, List.filterMap_cons]
  | bool b => simp [truthyIds, List.filterMap_cons]
  | num n => simp [truthyIds, List.filterMap_cons]
  | str s => simp [truthyIds, List.filterMap_cons]
  | arr xs => simp [truthyIds, List.filterMap_cons]

theorem idFieldsOk_rest {j : Json} {rest : List Json} (h : idFieldsOk (j :: rest) = true) :
    idFieldsOk rest = true := by
  simp only [idFieldsOk, List.all_cons, Bool.and_eq_true] at h ⊢
  exact h.2

theorem load_items_ids (today : PyDate) (fresh : Nat → String)
    (hinj : ∀ m n, fresh m = fresh n → m = n) :
    ∀ (items : List Json) (k : Nat) (ts : List Task),
      idFieldsOk items = true →
      (truthyIds items).Nodup →
      (∀ j ∈ truthyIds items, ∀ n, j ≠ Json.str (fresh n)) →
      load_items today fresh items k = .ok ts →
      (taskIds ts).Nodup ∧
      (∀ x ∈ taskIds ts, x ∈ truthyIds items ∨ ∃ n, k ≤ n ∧ x = Json.str (fresh n))
  | [], k, ts, _, _, _, h => by
    have h2 : ([] : List Task) = ts := by injection h
    subst h2
    exact ⟨List.nodup_nil, fun x hx => absurd hx (List.not_mem_nil x)⟩
  | j :: rest, k, ts, hok, hdup, hdisj, h => by
    cases j with
    | null =>
      have e1 := truthyIds_cons_non_obj (j := Json.null) (fun fs hh => Json.noConfusion hh) rest
      rw [e1] at hdup hdisj
      obtain ⟨hN, hM⟩ :=
        load_items_ids today fresh hinj rest k ts (idFieldsOk_rest hok) hdup hdisj h
      refine ⟨hN, fun x hx => ?_⟩
      rw [e1]
      exact hM x hx
    | bool b =>
      have e1 := truthyIds_cons_non_obj (j := Json.bool b) (fun fs hh => Json.noConfusion hh) rest
      rw [e1] at hdup hdisj
      obtain ⟨hN, hM⟩ :=
        load_items_ids today fresh hinj rest k ts (idFieldsOk_rest hok) hdup hdisj h
      refine ⟨hN, fun x hx => ?_⟩
      rw [e1]
      exact hM x hx
    | num n =>
      have e1 := truthyIds_cons_non_obj (j := Json.num n) (fun fs hh => Json.noConfusion hh) rest
      rw [e1] at hdup hdisj
      obtain ⟨hN, hM⟩ :=
        load_items_ids today fresh hinj rest k ts (idFieldsOk_rest hok) hdup hdisj h
      refine ⟨hN, fun x hx => ?_⟩
      rw [e1]
      exact hM x hx
    | str s =>
      have e1 := truthyIds_cons_non_obj (j := Json.str s) (fun fs hh => Json.noConfusion hh) rest
      rw [e1] at hdup hdisj
      obtain ⟨hN, hM⟩ :=
        load_items_ids today fresh hinj rest k ts (idFieldsOk_rest hok) hdup hdisj h
      refine ⟨hN, fun x hx => ?_⟩
      rw [e1]
      exact hM x hx
    | arr xs =>
      have e1 := truthyIds_cons_non_obj (j := Json.arr xs) (fun fs hh => Json.noConfusion hh) rest
      rw [e1] at hdup hdisj
      obtain ⟨hN, hM⟩ :=
        load_items_ids today fresh hinj rest k ts (idFieldsOk_rest hok) hdup hdisj h
      refine ⟨hN, fun x hx => ?_⟩
      rw [e1]
      exact hM x hx
    | obj fs =>
      have h' : (match normalizeItem today (fresh k) fs with
        | .error e => (.error e : Except Unit (List Task))
        | .ok tb =>
          match load_items today fresh rest (if tb.2 then k + 1 else k) with
          | .error e => .error e
          | .ok ts2 => .ok (tb.1 :: ts2)) = .ok ts := h
      cases hn : normalizeItem today (fresh k) fs with
      | error e =>
        rw [hn] at h'
        exact Except.noConfusion h'
      | ok tb =>
        rw [hn] at h'
        dsimp only at h'
        cases hl : load_items today fresh rest (if tb.2 then k + 1 else k) with
        | error e =>
          rw [hl] at h'
          exact Except.noConfusion h'
        | ok ts2 =>
          rw [hl] at h'
          have h2 : tb.1 :: ts2 = ts := by injection h'
          subst h2
          obtain ⟨d, hnd, ht, hb⟩ := normalizeItem_ok hn
          cases hid : assocGet fs "id" with
          | some v =>
            cases htr : v.truthy with
            | true =>
              have hTid : tb.1.id = v := by rw [ht]; simp [normId, hid, htr]
              have hTb : tb.2 = false := by rw [hb]; simp [normId, hid, htr]
              have e1 : truthyIds (Json.obj fs :: rest) = v :: truthyIds rest := by
                simp [truthyIds, List.filterMap_cons, hid, htr]
              rw [e1] at hdup hdisj
              obtain ⟨hv1, hv2⟩ := List.nodup_cons.mp hdup
              rw [hTb] at hl
              have hl' : load_items today fresh rest k = .ok ts2 := by simpa using hl
              obtain ⟨hN, hM⟩ := load_items_ids today fresh hinj rest k ts2
                (idFieldsOk_rest hok) hv2
                (fun j hj n => hdisj j (List.mem_cons_of_mem _ hj) n) hl'
              constructor
              · refine List.nodup_cons.mpr ⟨?_, hN⟩
                rw [hTid]
                intro hvmem
                rcases hM v hvmem with hIn | ⟨n, _, hEq⟩
                · exact hv1 hIn
                · exact hdisj v (List.mem_cons_self _ _) n hEq
              · intro x hx
                rcases List.mem_cons.mp hx with hx1 | hx2
                · refine Or.inl ?_
                  rw [e1, hx1, hTid]
                  exact List.mem_cons_self _ _
                · rcases hM x hx2 with hIn | hFresh
                  · refine Or.inl ?_
                    rw [e1]
                    exact List.mem_cons_of_mem _ hIn
                  · exact Or.inr hFresh
            | false =>
              have hTid : tb.1.id = Json.str (fresh k) := by rw [ht]; simp [normId, hid, htr]
              have hTb : tb.2 = true := by rw [hb]; simp [normId, hid, htr]
              have e1 : truthyIds (Json.obj fs :: rest) = truthyIds rest := by
                simp [truthyIds, List.filterMap_cons, hid, htr]
              rw [e1] at hdup hdisj
              rw [hTb] at hl
              have hl' : load_items today fresh rest (k + 1) = .ok ts2 := by simpa using hl
              obtain ⟨hN, hM⟩ := load_items_ids today fresh hinj rest (k + 1) ts2
                (idFieldsOk_rest hok) hdup hdisj hl'
              constructor
              · refine List.nodup_cons.mpr ⟨?_, hN⟩
                rw [hTid]
                intro hmem
                rcases hM _ hmem with hIn | ⟨n, hn2, hEq⟩
                · exact hdisj _ hIn k rfl
                · have hfe : fresh k = fresh n := by injection hEq
                  have := hinj k n hfe
                  omega
              · intro x hx
                rcases List.mem_cons.mp hx with hx1 | hx2
                · exact Or.inr ⟨k, Nat.le_refl k, by rw [hx1, hTid]⟩
                · rcases hM x hx2 with hIn | ⟨n, hn2, hEq⟩
                  · refine Or.inl ?_
                    rw [e1]
                    exact hIn
                  · exact Or.inr ⟨n, by omega, hEq⟩
          | none =>
            have hTid : tb.1.id = Json.str (fresh k) := by rw [ht]; simp [normId, hid]
            have hTb : tb.2 = true := by rw [hb]; simp [normId, hid]
            have e1 : truthyIds (Json.obj fs :: rest) = truthyIds rest := by
              simp [truthyIds, List.filterMap_cons, hid]
            rw [e1] at hdup hdisj
            rw [hTb] at hl
            have hl' : load_items today fresh rest (k + 1) = .ok ts2 := by simpa using hl
            obtain ⟨hN, hM⟩ := load_items_ids today fresh hinj rest (k + 1) ts2
              (idFieldsOk_rest hok) hdup hdisj hl'
            constructor
            · refine List.nodup_cons.mpr ⟨?_, hN⟩
              rw [hTid]
              intro hmem
              rcases hM _ hmem with hIn | ⟨n, hn2, hEq⟩
              · exact hdisj _ hIn k rfl
              · have hfe : fresh k = fresh n := by injection hEq
                have := hinj k n hfe
                omega
            · intro x hx
              rcases List.mem_cons.mp hx with hx1 | hx2
              · exact Or.inr ⟨k, Nat.le_refl k, by rw [hx1, hTid]⟩
              · rcases hM x hx2 with hIn | ⟨n, hn2, hEq⟩
                · refine Or.inl ?_
                  rw [e1]
                  exact hIn
                · exact Or.inr ⟨n, by omega, hEq⟩

theorem toggleLoop_ids (tid : String) (v : Bool) :
    ∀ tasks : List Task, taskIds (toggleLoop tid v tasks) = taskIds tasks
  | [] => rfl
  | t :: ts => by
    unfold toggleLoop
    by_cases h : t.id = Json.str tid
    · rw [if_pos h]
      rfl
    · rw [if_neg h]
      show t.id :: taskIds (toggleLoop tid v ts) = t.id :: taskIds ts
      rw [toggleLoop_ids tid v ts]

theorem carry_ids (today : PyDate) (tasks : List Task) (file : FileState) :
    taskIds (carry_over_unfinished today tasks file).1 = taskIds tasks := by
  show taskIds (carryLoop today tasks).1 = _
  rw [(carryLoop_spec today tasks).1]
  unfold taskIds
  rw [List.map_map]
  apply List.map_congr_left
  intro t _
  show Task.id (if overdue today t then { t with date := isoformat today } else t) = t.id
  split <;> rfl

/-- Claim C4 (amended): ids are unique after `load_tasks` provided
the backing file's id fields are strings (or falsy/absent), the kept
(truthy) ids are pairwise distinct, and the uuid generator never
repeats itself nor collides with a kept id; and every mutation
(delete, toggle, rollover, add) preserves uniqueness, the add
assuming its fresh uuid is not already present.  The claim as stated
is false: `load_tasks` keeps duplicated ids found in the file. -/
theorem C4_unique_ids :
    (∀ (today : PyDate) (fresh : Nat → String) (file : FileState) (ts : List Task),
      (∀ m n, fresh m = fresh n → m = n) → FileIdsOk fresh file →
      load_tasks today fresh file = .ok ts → UniqueIds ts) ∧
    (∀ (tasks : List Task) (tid : String), UniqueIds tasks →
      UniqueIds (delete_task tasks tid).1) ∧
    (∀ (tasks : List Task) (tid : String) (v : Bool), UniqueIds tasks →
      UniqueIds (toggle_done tasks tid v).1) ∧
    (∀ (today : PyDate) (tasks : List Task) (file : FileState), UniqueIds tasks →
      UniqueIds (carry_over_unfinished today tasks file).1) ∧
    (∀ (add : Bool) (title : String) (due : PyDate) (priority notes newId : String)
      (tasks : List Task) (file : FileState), UniqueIds tasks →
      Json.str newId ∉ taskIds tasks →
      UniqueIds (add_task_handler add title due priority notes newId tasks file).1) := by
  refine ⟨?_, ?_, ?_, ?_, ?_⟩
  · intro today fresh file ts hinj hfo h
    cases file with
    | absent =>
      have h2 : ([] : List Task) = ts := by injection h
      subst h2
      exact List.nodup_nil
    | invalid =>
      have h2 : ([] : List Task) = ts := by injection h
      subst h2
      exact List.nodup_nil
    | json j =>
      cases j with
      | arr items =>
        obtain ⟨hok, hdup, hdisj⟩ := hfo
        exact (load_items_ids today fresh hinj items 0 ts hok hdup hdisj h).1
      | str s =>
        have hno := load_items_no_obj today fresh
          (s.data.map (fun c => Json.str (String.mk [c]))) 0
          (fun j hj fs hjf => by subst hjf; simp at hj)
        have h' : load_items today fresh (s.data.map (fun c => Json.str (String.mk [c]))) 0 =
          .ok ts := h
        rw [hno] at h'
        have h2 : ([] : List Task) = ts := by injection h'
        subst h2
        exact List.nodup_nil
      | obj fs2 =>
        have hno := load_items_no_obj today fresh (fs2.map (fun kv => Json.str kv.1)) 0
          (fun j hj fs hjf => by subst hjf; simp at hj)
        have h' : load_items today fresh (fs2.map (fun kv => Json.str kv.1)) 0 = .ok ts := h
        rw [hno] at h'
        have h2 : ([] : List Task) = ts := by injection h'
        subst h2
        exact List.nodup_nil
      | null => exact Except.noConfusion h
      | bool b => exact Except.noConfusion h
      | num n => exact Except.noConfusion h
  · intro tasks tid hu
    have hsub : List.Sublist (taskIds (delete_task tasks tid).1) (taskIds tasks) :=
      (List.filter_sublist tasks).map Task.id
    exact hu.sublist hsub
  · intro tasks tid v hu
    show (taskIds (toggleLoop tid v tasks)).Nodup
    rw [toggleLoop_ids tid v tasks]
    exact hu
  · intro today tasks file hu
    show (taskIds (carry_over_unfinished today tasks file).1).Nodup
    rw [carry_ids today tasks file]
    exact hu
  · intro add title due priority notes newId tasks file hu hnew
    unfold add_task_handler
    cases hc : add && !(pyStrip title).isEmpty
    · simpa using hu
    · simp only [if_true]
      show (taskIds (tasks ++ [_])).Nodup
      unfold taskIds
      rw [List.map_append]
      rw [List.nodup_append]
      refine ⟨hu, List.nodup_singleton _, ?_⟩
      intro a ha hb
      simp only [List.map_cons, List.map_nil, List.mem_singleton] at hb
      subst hb
      exact hnew ha

/-- Counterexample to claim C4 as stated: a backing file carrying two
records with the same id loads into a collection with a duplicated
id. -/
theorem C4_counterexample :
    load_tasks ⟨2024, 3, 1⟩ (fun _ => "u")
      (.json (.arr [Json.obj [("id", Json.str "a")], Json.obj [("id", Json.str "a")]])) =
      .ok [⟨Json.str "a", "Untitled task", "2024-03-01", "P2", "", false⟩,
           ⟨Json.str "a", "Untitled task", "2024-03-01", "P2", "", false⟩] ∧
    ¬ UniqueIds [⟨Json.str "a", "Untitled task", "2024-03-01", "P2", "", false⟩,
                 ⟨Json.str "a", "Untitled task", "2024-03-01", "P2", "", false⟩] :=
  ⟨rfl, by unfold UniqueIds taskIds; decide⟩

/-- Witness for C4 (amended) at concrete inputs for each operation. -/
theorem C4_witness :
    UniqueIds [⟨Json.str "", "Untitled task", "2024-03-01", "P2", "", false⟩,
               ⟨Json.str "u", "Untitled task", "2024-03-01", "P2", "", false⟩] ∧
    UniqueIds (delete_task [⟨Json.str "a", "t", "2024-03-02", "P2", "", false⟩] "a").1 ∧
    UniqueIds (toggle_done [⟨Json.str "a", "t", "2024-03-02", "P2", "", false⟩] "a" true).1 ∧
    UniqueIds (carry_over_unfinished ⟨2024, 3, 5⟩
      [⟨Json.str "a", "t", "2024-03-02", "P2", "", false⟩] FileState.absent).1 ∧
    UniqueIds (add_task_handler true "hi" ⟨2024, 3, 5⟩ "P2" "" "w"
      [⟨Json.str "a", "t", "2024-03-02", "P2", "", false⟩] FileState.absent).1 :=
  ⟨C4_unique_ids.1 ⟨2024, 3, 1⟩ (fun n => String.mk (List.replicate n 'u'))
      (.json (.arr [Json.obj [], Json.obj []])) _
      (fun m n h => by
        have h2 := congrArg (fun s : String => s.data.length) h
        simpa using h2)
      ⟨by decide, by decide, fun j hj n => by
        rw [show truthyIds [Json.obj [], Json.obj []] = [] from rfl] at hj
        exact absurd hj (List.not_mem_nil j)⟩
      rfl,
   C4_unique_ids.2.1 [⟨Json.str "a", "t", "2024-03-02", "P2", "", false⟩] "a"
     (by unfold UniqueIds taskIds; decide),
   C4_unique_ids.2.2.1 [⟨Json.str "a", "t", "2024-03-02", "P2", "", false⟩] "a" true
     (by unfold UniqueIds taskIds; decide),
   C4_unique_ids.2.2.2.1 ⟨2024, 3, 5⟩ [⟨Json.str "a", "t", "2024-03-02", "P2", "", false⟩]
     FileState.absent (by unfold UniqueIds taskIds; decide),
   C4_unique_ids.2.2.2.2 true "hi" ⟨2024, 3, 5⟩ "P2" "" "w"
     [⟨Json.str "a", "t", "2024-03-02", "P2", "", false⟩] FileState.absent
     (by unfold UniqueIds taskIds; decide)
     (by unfold taskIds; decide)⟩

end TodoApp
